import Mathlib

/-!
Verification of the `place` DNS-backed equipment-inventory engine.

The Go sources are shallowly embedded:
* strings are Lean `String`s (the Go code only ever handles ASCII zone and
  host names, where Go's byte-wise operations agree with `Char`-wise ones);
* IPv4 addresses are quadruples of naturals (the code only handles dotted
  IPv4 text; `net.IP` values are rendered and parsed explicitly);
* `float64` fields are modelled as `ℚ` (exact arithmetic; conversions to
  `uint32` truncate toward zero as Go does for in-range values);
* Go maps are association lists with insert-or-overwrite (`upsert`);
  iteration order is the insertion order, one of the orders a Go map may use;
* the network side (`dns.Client`, AXFR, TSIG) is an oracle parameter:
  `Transfer` becomes a `transfer : String → Except String (List RR)` argument,
  and the dynamic-update exchange becomes an `exec : Txn → Option String`
  argument (`none` = success); update functions return the list of issued
  transactions together with the final result.
-/

namespace Place

/-! ### Go string helpers -/

/-- Go `strings.Split(s, sep)` for a one-character separator, on `Char` lists. -/
def splitChar (sep : Char) : List Char → List (List Char)
  | [] => [[]]
  | c :: t =>
    match splitChar sep t with
    | [] => [[c]]
    | h :: r => if c = sep then [] :: h :: r else (c :: h) :: r

/-- Go `strings.Split(s, sep)` for a one-character separator. -/
def goSplit (s : String) (sep : Char) : List String :=
  (splitChar sep s.data).map (fun l => ⟨l⟩)

/-- Go `strings.Join(l, sep)`. -/
def goJoin (sep : String) : List String → String
  | [] => ""
  | [x] => x
  | x :: y :: xs => x ++ sep ++ goJoin sep (y :: xs)

/-- Go `strings.Replace(s, pat, rep, -1)` (all non-overlapping occurrences,
left to right) on `Char` lists.  The sources only call it with a non-empty
pattern; for an empty pattern this copies the input.  The `fuel` argument
only makes the recursion structural: each step consumes at least one input
character, so `fuel = l.length` (as supplied by `goReplace`) never runs out. -/
def replaceAll (pat rep : List Char) : Nat → List Char → List Char
  | _, [] => []
  | 0, l => l
  | fuel + 1, c :: t =>
    if pat.isPrefixOf (c :: t) ∧ pat ≠ [] then
      rep ++ replaceAll pat rep fuel ((c :: t).drop pat.length)
    else
      c :: replaceAll pat rep fuel t

/-- Go `strings.Replace(s, pat, rep, -1)`. -/
def goReplace (s pat rep : String) : String :=
  ⟨replaceAll pat.data rep.data s.data.length s.data⟩

/-- Go `strings.HasPrefix(s, pre)`. -/
def strHasPre (s pre : String) : Bool :=
  pre.data.isPrefixOf s.data

/-- Go `strings.ToLower` restricted to ASCII (all names handled by the code
are ASCII, where this agrees with Go's Unicode mapping). -/
def goToLower (s : String) : String :=
  ⟨s.data.map Char.toLower⟩

/-- Go `strings.EqualFold` restricted to ASCII, where simple case folding
coincides with lower-casing both sides. -/
def goEqualFold (a b : String) : Bool :=
  goToLower a == goToLower b

/-- `dns.Fqdn`: append a trailing dot when one is missing. -/
def goFqdn (s : String) : String :=
  if s.data.getLast? = some '.' then s else s ++ "."

/-! ### IPv4 addresses -/

/-- A parsed IPv4 address (the code only handles dotted IPv4 text). -/
structure IPv4 where
  a : Nat
  b : Nat
  c : Nat
  d : Nat
deriving DecidableEq, Repr

/-- `net.IP.String` for an IPv4 address: dotted decimal. -/
def IPv4.render (ip : IPv4) : String :=
  goJoin "." [Nat.repr ip.a, Nat.repr ip.b, Nat.repr ip.c, Nat.repr ip.d]

/-- One dotted-decimal component accepted by `net.ParseIP`: a non-empty run
of digits whose value is at most 255. -/
def parseOctet (s : String) : Option Nat :=
  if s.data ≠ [] ∧ s.data.all Char.isDigit then
    let n := s.data.foldl (fun n c => n * 10 + (c.toNat - '0'.toNat)) 0
    if n ≤ 255 then some n else none
  else none

/-- `net.ParseIP` restricted to dotted IPv4 (anything else yields `none`,
as `ParseIP` yields `nil` for the inputs this code feeds it). -/
def parseIPv4 (s : String) : Option IPv4 :=
  match goSplit s '.' with
  | [a, b, c, d] =>
    match parseOctet a, parseOctet b, parseOctet c, parseOctet d with
    | some pa, some pb, some pc, some pd => some ⟨pa, pb, pc, pd⟩
    | _, _, _, _ => none
  | _ => none

/-- `net.IP.Equal` on our values: the devices handled here carry either no
address (`nil`) or a parsed IPv4 one, where `Equal` is plain equality
(`nil.Equal(nil)` is `true` in Go, matching `none == none`). -/
def ipEqual (x y : Option IPv4) : Bool :=
  x == y

/-! ### Device -/

/-- RFC 1876 constants, as in the source. -/
def LOC_EQUATOR : Nat := 2 ^ 31

def LOC_PRIMEMERIDIAN : Nat := 2 ^ 31

def LOC_DEGREES : ℚ := 60 * 60 * 1000

def LOC_ALTITUDEBASE : ℚ := 100000

/-- `Device` from the source: DNS-stored equipment information.
`float64` fields are modelled as `ℚ`; the Go zero values are the defaults. -/
structure Device where
  Name : String := ""
  IP : Option IPv4 := none
  Reverse : List IPv4 := []
  Mapping : List (String × IPv4) := []
  Aliases : List String := []
  Place : String := ""
  Model : String := ""
  Code : String := ""
  Latitude : ℚ := 0
  Longitude : ℚ := 0
  Height : ℚ := 0
deriving DecidableEq, Repr

/-- `Device.SetLocation`: decode the three RFC 1876 32-bit fixed-point values.
The `uint32` subtractions cannot wrap (each branch subtracts the smaller
side), so `Nat` subtraction is exact. -/
def Device.SetLocation (d : Device) (lat lon alt : Nat) : Device :=
  { d with
    Latitude :=
      if lat > LOC_EQUATOR then ((lat - LOC_EQUATOR : Nat) : ℚ) / LOC_DEGREES
      else ((LOC_EQUATOR - lat : Nat) : ℚ) / (-LOC_DEGREES)
    Longitude :=
      if lon > LOC_PRIMEMERIDIAN then ((lon - LOC_PRIMEMERIDIAN : Nat) : ℚ) / LOC_DEGREES
      else ((LOC_PRIMEMERIDIAN - lon : Nat) : ℚ) / (-LOC_DEGREES)
    Height := (alt : ℚ) / 100 - LOC_ALTITUDEBASE }

/-- Go's `uint32(q)` on a `float64`, for the in-range values the code uses:
truncation toward zero (out-of-range conversions are unspecified in Go;
here negatives clamp to `0` and the result is reduced mod `2^32`). -/
def q2u32 (q : ℚ) : Nat :=
  (q.num.tdiv (q.den : Int)).toNat % 2 ^ 32

/-- `Device.Location`: encode latitude/longitude/height back to the three
32-bit values. -/
def Device.Location (d : Device) : Nat × Nat × Nat :=
  (q2u32 (d.Latitude * LOC_DEGREES + (LOC_EQUATOR : ℚ)),
   q2u32 (d.Longitude * LOC_DEGREES + (LOC_PRIMEMERIDIAN : ℚ)),
   q2u32 ((d.Height + LOC_ALTITUDEBASE) * 100))

def Device.HasName (d : Device) (name : String) : Bool :=
  goEqualFold d.Name name

def Device.HasAddress (d : Device) (ip : Option IPv4) : Bool :=
  ipEqual d.IP ip || d.Reverse.any (fun a => ipEqual (some a) ip)

def Device.AtPlace (d : Device) (place : String) : Bool :=
  goEqualFold d.Place place

def Device.AtLocation (d : Device) (lat lon alt : Nat) : Bool :=
  let (la, lo, al) := d.Location
  la == lat && lo == lon && al == alt

def Device.HasCode (d : Device) (code : String) : Bool :=
  goEqualFold d.Code code

def Device.HasModel (d : Device) (model : String) : Bool :=
  d.Model == model

/-- `Device.Equal`: the chain of early-return checks in the source. -/
def Device.Equal (d device : Device) : Bool :=
  d.HasName device.Name &&
  d.HasAddress device.IP &&
  d.HasCode device.Code &&
  d.HasModel device.Model &&
  (let (la, lo, al) := device.Location
   d.AtLocation la lo al)

def Device.HasAlias (d : Device) (a : String) : Bool :=
  d.Aliases.any (fun x => x == a)

def Device.HasReverse (d : Device) (ip : IPv4) : Bool :=
  d.Reverse.any (fun x => x == ip)

def Device.HasMapping (d : Device) (name : String) (ip : IPv4) : Bool :=
  d.Mapping.any (fun p => p.1 == name && p.2 == ip)

/-! ### Devices (the inventory wrapper) -/

structure Devices where
  List : List Device

/-- `Devices.Find`: first device whose `Name` equals the argument, by exact
(case-sensitive) string comparison. -/
def Devices.Find (d : Devices) (name : String) : Option Device :=
  d.List.find? (fun s => s.Name == name)

/-! ### RFC 1876 size encoding and LOC projection -/

/-- The `for v = cms; v >= 10; v = v / 10` loop of `cm2size`.  The `fuel`
argument only makes the recursion structural: the loop runs at most
`log₁₀ v ≤ v` times, so `fuel = cms` (as supplied by `cm2size`) never runs
out. -/
def cm2sizeLoop : Nat → Nat → Nat → Nat × Nat
  | 0, v, e => (v, e)
  | fuel + 1, v, e => if v ≥ 10 then cm2sizeLoop fuel (v / 10) (e + 1) else (v, e)

/-- `cm2size`: pack a centimetre value into a mantissa/exponent byte,
`(uint8(v) << 4) | uint8(e & 0x0f)`. -/
def cm2size (cms : Nat) : Nat :=
  let p := cm2sizeLoop cms cms 0
  (p.1 % 256 * 16) % 256 ||| p.2 % 16

/-- The fields of a `dns.LOC` resource record that the code fills in. -/
structure LOCRR where
  Name : String
  Ttl : Nat
  Size : Nat
  HorizPre : Nat
  VertPre : Nat
  Latitude : Nat
  Longitude : Nat
  Altitude : Nat
deriving DecidableEq, Repr

/-- `Device.ToLOC`: project a device to its location record, with the fixed
default size (10000 cm) and horizontal/vertical precision (5000 cm each). -/
def Device.ToLOC (d : Device) : LOCRR :=
  let (la, lo, al) := d.Location
  { Name := goFqdn d.Name
    Ttl := 0
    Size := cm2size 10000
    HorizPre := cm2size 5000
    VertPre := cm2size 5000
    Latitude := la
    Longitude := lo
    Altitude := al }

/-! ### Go maps as association lists -/

/-- Go map assignment `m[k] = v`: overwrite in place, else append. -/
def upsert {α : Type} (m : List (String × α)) (k : String) (v : α) : List (String × α) :=
  match m with
  | [] => [(k, v)]
  | (k', v') :: t => if k' = k then (k, v) :: t else (k', v') :: upsert t k v

/-- Go map read `m[k]` (with its `ok` flag as `Option`). -/
def mfind {α : Type} (m : List (String × α)) (k : String) : Option α :=
  match m with
  | [] => none
  | (k', v) :: t => if k' = k then some v else mfind t k

/-- The keys of a Go map, in iteration order. -/
def mkeys {α : Type} (m : List (String × α)) : List String :=
  m.map Prod.fst

/-! ### Resource records and `Service.List` -/

/-- The record kinds `Service.List` dispatches on (the `r.Header().Name`
field comes first in each constructor). -/
inductive RR where
  | A (name : String) (ip : IPv4)
  | PTR (name target : String)
  | CNAME (name target : String)
  | TXT (name : String) (txt : List String)
  | HINFO (name cpu os : String)
  | LOC (name : String) (lat lon alt : Nat)
deriving DecidableEq, Repr

/-- `r.Header().Name`. -/
def RR.name : RR → String
  | .A n _ => n
  | .PTR n _ => n
  | .CNAME n _ => n
  | .TXT n _ => n
  | .HINFO n _ _ => n
  | .LOC n _ _ _ => n

/-- The address key computed for a PTR record found in reverse zone `z`:
strip the zone from the record name, append the zone with its
`.in-addr.arpa.` suffix stripped, split on dots, reverse, and re-join. -/
def ptrKey (z n : String) : String :=
  goJoin "." ((goSplit (goReplace n z "" ++ goReplace z ".in-addr.arpa." "") '.').reverse)

/-- The PTR-collection pass over one reverse zone's records. -/
def extractPtrs (z : String) (rr : List RR) (ptrs : List (String × String)) :
    List (String × String) :=
  rr.foldl
    (fun acc r =>
      match r with
      | .PTR n t => upsert acc (ptrKey z n) t
      | _ => acc)
    ptrs

/-- Transfer each reverse zone in turn, aborting on the first failure. -/
def collectPtrs (transfer : String → Except String (List RR)) :
    List String → List (String × String) → Except String (List (String × String))
  | [], acc => .ok acc
  | z :: zs, acc =>
    match transfer z with
    | .error e => .error e
    | .ok rr => collectPtrs transfer zs (extractPtrs z rr acc)

/-- Transfer each forward zone in turn, accumulating the records and
aborting on the first failure. -/
def collectRRs (transfer : String → Except String (List RR)) :
    List String → List RR → Except String (List RR)
  | [], acc => .ok acc
  | z :: zs, acc =>
    match transfer z with
    | .error e => .error e
    | .ok rr => collectRRs transfer zs (acc ++ rr)

/-- The first forward pass: collect A records into provisional devices and
CNAME records into the alias table. -/
def scanRecords (rr : List RR) :
    List (String × Device) × List (String × String) :=
  rr.foldl
    (fun acc r =>
      match r with
      | .A n ip => (upsert acc.1 n { Name := n, IP := some ip }, acc.2)
      | .CNAME n t => (acc.1, upsert acc.2 n t)
      | _ => acc)
    ([], [])

/-- "gather alias addresses": attach each CNAME to its target device, unless
the CNAME's own name is a known device. -/
def attachAliases (cnames : List (String × String)) (devs : List (String × Device)) :
    List (String × Device) :=
  cnames.foldl
    (fun devs p =>
      if (mfind devs p.1).isSome then devs
      else
        match mfind devs p.2 with
        | some d => upsert devs p.2 { d with Aliases := d.Aliases ++ [p.1] }
        | none => devs)
    devs

/-- "gather reverse lookups": attach each parsed PTR address to the device
it points at. -/
def attachReverse (ptrs : List (String × String)) (devs : List (String × Device)) :
    List (String × Device) :=
  ptrs.foldl
    (fun devs p =>
      match parseIPv4 p.1 with
      | some ip =>
        match mfind devs p.2 with
        | some d => upsert devs p.2 { d with Reverse := d.Reverse ++ [ip] }
        | none => devs
      | none => devs)
    devs

/-- "gather mappings": a PTR pointing at a CNAME of a device records the
alias/address pair in that device's mapping. -/
def attachMappings (ptrs cnames : List (String × String))
    (devs : List (String × Device)) : List (String × Device) :=
  ptrs.foldl
    (fun devs p =>
      match parseIPv4 p.1 with
      | some ip =>
        match mfind cnames p.2 with
        | some c =>
          match mfind devs c with
          | some d => upsert devs c { d with Mapping := upsert d.Mapping p.2 ip }
          | none => devs
        | none => devs
      | none => devs)
    devs

/-- "gather other device details": enrich known devices with TXT, HINFO and
LOC data. -/
def enrich (rr : List RR) (devs : List (String × Device)) :
    List (String × Device) :=
  rr.foldl
    (fun devs r =>
      match mfind devs r.name with
      | none => devs
      | some d =>
        let d' :=
          match r with
          | .TXT _ txt => { d with Place := goJoin " " txt }
          | .HINFO _ cpu os => { d with Model := cpu, Code := os }
          | .LOC _ la lo al => d.SetLocation la lo al
          | _ => d
        upsert devs r.name d')
    devs

/-- Lexicographic strict comparison of `Char` lists by code point (Go's
byte-wise string `<`, which agrees with this on valid UTF-8). -/
def charListLt : List Char → List Char → Bool
  | [], [] => false
  | [], _ :: _ => true
  | _ :: _, [] => false
  | c :: cs, d :: ds =>
    if c.toNat < d.toNat then true
    else if d.toNat < c.toNat then false
    else charListLt cs ds

/-- Go string `<` (lexicographic). -/
def goStrLt (a b : String) : Bool :=
  charListLt a.data b.data

/-- Go string `<=` (lexicographic). -/
def goStrLe (a b : String) : Bool :=
  !goStrLt b a

/-- `sort.Strings`: model by insertion sort over the lexicographic order
(the result — an ascending reordering — is all the code depends on). -/
def sortStrings (l : List String) : List String :=
  l.insertionSort (fun a b => goStrLe a b = true)

/-- The final pass: sorted keys looked back up in the device map. -/
def buildResult (devs : List (String × Device)) : List Device :=
  (sortStrings (mkeys devs)).filterMap (fun k => mfind devs k)

/-- `Service.List`, with the zone transfer as an oracle: correlate the
transferred records of the forward `zones` and the `reverse` zones into the
sorted device list. -/
def ServiceList (transfer : String → Except String (List RR))
    (zones reverse : List String) : Except String (List Device) :=
  match collectPtrs transfer reverse [] with
  | .error e => .error e
  | .ok ptrs =>
    match collectRRs transfer zones [] with
    | .error e => .error e
    | .ok rr =>
      let (devs0, cnames) := scanRecords rr
      let devs1 := attachAliases cnames devs0
      let devs2 := attachReverse ptrs devs1
      let devs3 := attachMappings ptrs cnames devs2
      let devs4 := enrich rr devs3
      .ok (buildResult devs4)

/-! ### Differential reconciliation (`Update` and its three sub-steps)

The authenticated exchange behind `Insert` / `RemoveRRset` is an oracle
`exec : Txn → Option String` (`none` = success).  Each function returns the
transactions it issued, in order, together with the first error. -/

/-- The records placed in update transactions. `ttl` is the header TTL
(0 when the source leaves it unset) and `target` the `Ptr`/`Target` field
("" when the source leaves it unset). -/
inductive URecord where
  | ptr (name : String) (ttl : Nat) (target : String)
  | cname (name : String) (ttl : Nat) (target : String)
deriving DecidableEq, Repr

/-- One authenticated update transaction against a zone. -/
inductive Txn where
  | insert (zone : String) (rr : List URecord)
  | removeRRset (zone : String) (rr : List URecord)
deriving DecidableEq, Repr

/-- The zone a transaction is directed at. -/
def Txn.zone : Txn → String
  | .insert z _ => z
  | .removeRRset z _ => z

/-- `findPrivateZone`: route an address to the reverse zone of its private
range, based on the dotted rendering's prefix, else keep the given zone. -/
def findPrivateZone (ip : IPv4) (zone : String) : String :=
  if strHasPre ip.render "10." then "10.in-addr.arpa."
  else if strHasPre ip.render "172.16." then "16.172.in-addr.arpa."
  else if strHasPre ip.render "192.168." then "168.192.in-addr.arpa."
  else zone

/-- `reverseAddress`: the dotted octets reversed, under `in-addr.arpa.`. -/
def reverseAddress (ip : IPv4) : String :=
  goJoin "." ((goSplit ip.render '.').reverse) ++ ".in-addr.arpa."

/-- The "EXTRA REVERSE" loop of `UpdateReverse`: remove the reverse records
of addresses present in `fromD` but not in `toD`, routed by private zone and
skipped when the computed zone equals the caller's. -/
def reverseExtraLoop (exec : Txn → Option String) (zone : String)
    (fromD toD : Device) : List IPv4 → List Txn × Option String
  | [] => ([], none)
  | r :: rs =>
    if toD.HasReverse r then reverseExtraLoop exec zone fromD toD rs
    else
      let z := findPrivateZone r zone
      if z = zone then reverseExtraLoop exec zone fromD toD rs
      else
        let p := URecord.ptr (reverseAddress r) 0 (goFqdn fromD.Name)
        match exec (.removeRRset z [p]) with
        | some e => ([.removeRRset z [p]], some e)
        | none =>
          let t := reverseExtraLoop exec zone fromD toD rs
          (.removeRRset z [p] :: t.1, t.2)

/-- The "MISSING REVERSE" loop of `UpdateReverse`: for addresses present in
`toD` but not in `fromD`, an idempotent removal followed by the insertion of
the reverse record pointing at `toD`'s name, with the caller's TTL. -/
def reverseMissingLoop (exec : Txn → Option String) (zone : String) (ttl : Nat)
    (fromD toD : Device) : List IPv4 → List Txn × Option String
  | [] => ([], none)
  | r :: rs =>
    if fromD.HasReverse r then reverseMissingLoop exec zone ttl fromD toD rs
    else
      let z := findPrivateZone r zone
      if z = zone then reverseMissingLoop exec zone ttl fromD toD rs
      else
        let p0 := URecord.ptr (reverseAddress r) 0 ""
        let p1 := URecord.ptr (reverseAddress r) ttl (goFqdn toD.Name)
        match exec (.removeRRset z [p0]) with
        | some e => ([.removeRRset z [p0]], some e)
        | none =>
          match exec (.insert z [p1]) with
          | some e => ([.removeRRset z [p0], .insert z [p1]], some e)
          | none =>
            let t := reverseMissingLoop exec zone ttl fromD toD rs
            (.removeRRset z [p0] :: .insert z [p1] :: t.1, t.2)

/-- `Service.UpdateReverse`. -/
def UpdateReverse (exec : Txn → Option String) (zone : String) (ttl : Nat)
    (fromD toD : Device) : List Txn × Option String :=
  let e := reverseExtraLoop exec zone fromD toD fromD.Reverse
  match e.2 with
  | some err => (e.1, some err)
  | none =>
    let m := reverseMissingLoop exec zone ttl fromD toD toD.Reverse
    (e.1 ++ m.1, m.2)

/-- The "EXTRA ALIAS" loop of `UpdateAlias`: remove alias records present in
`fromD` but not in `toD` (the removal record's target is `toD`'s name). -/
def aliasExtraLoop (exec : Txn → Option String) (zone : String)
    (fromD toD : Device) : List String → List Txn × Option String
  | [] => ([], none)
  | r :: rs =>
    if toD.HasAlias r then aliasExtraLoop exec zone fromD toD rs
    else
      let c := URecord.cname (goFqdn r) 0 (goFqdn toD.Name)
      match exec (.removeRRset zone [c]) with
      | some e => ([.removeRRset zone [c]], some e)
      | none =>
        let t := aliasExtraLoop exec zone fromD toD rs
        (.removeRRset zone [c] :: t.1, t.2)

/-- The "MISSING ALIAS" loop of `UpdateAlias`: for aliases present in `toD`
but not in `fromD`, an idempotent removal followed by the insertion of a
CNAME whose target is `fromD`'s name (as in the source). -/
def aliasMissingLoop (exec : Txn → Option String) (zone : String)
    (fromD toD : Device) : List String → List Txn × Option String
  | [] => ([], none)
  | r :: rs =>
    if fromD.HasAlias r then aliasMissingLoop exec zone fromD toD rs
    else
      let c := URecord.cname (goFqdn r) 0 (goFqdn fromD.Name)
      match exec (.removeRRset zone [c]) with
      | some e => ([.removeRRset zone [c]], some e)
      | none =>
        match exec (.insert zone [c]) with
        | some e => ([.removeRRset zone [c], .insert zone [c]], some e)
        | none =>
          let t := aliasMissingLoop exec zone fromD toD rs
          (.removeRRset zone [c] :: .insert zone [c] :: t.1, t.2)

/-- `Service.UpdateAlias` (the `ttl` parameter is unused, as in the source). -/
def UpdateAlias (exec : Txn → Option String) (zone : String) (ttl : Nat)
    (fromD toD : Device) : List Txn × Option String :=
  let e := aliasExtraLoop exec zone fromD toD fromD.Aliases
  match e.2 with
  | some err => (e.1, some err)
  | none =>
    let m := aliasMissingLoop exec zone fromD toD toD.Aliases
    (e.1 ++ m.1, m.2)

/-- The "EXTRA MAPPING" loop of `UpdateMapping`. -/
def mappingExtraLoop (exec : Txn → Option String) (zone : String)
    (fromD toD : Device) : List (String × IPv4) → List Txn × Option String
  | [] => ([], none)
  | (m, i) :: rs =>
    if toD.HasMapping m i then mappingExtraLoop exec zone fromD toD rs
    else
      let p := URecord.ptr (reverseAddress i) 0 (goFqdn m)
      let z := findPrivateZone i zone
      if z = zone then mappingExtraLoop exec zone fromD toD rs
      else
        match exec (.removeRRset z [p]) with
        | some e => ([.removeRRset z [p]], some e)
        | none =>
          let t := mappingExtraLoop exec zone fromD toD rs
          (.removeRRset z [p] :: t.1, t.2)

/-- The "MISSING MAPPING" loop of `UpdateMapping`: the same PTR record (with
TTL 0, as in the source) is removed and then inserted. -/
def mappingMissingLoop (exec : Txn → Option String) (zone : String)
    (fromD toD : Device) : List (String × IPv4) → List Txn × Option String
  | [] => ([], none)
  | (m, i) :: rs =>
    if fromD.HasMapping m i then mappingMissingLoop exec zone fromD toD rs
    else
      let p := URecord.ptr (reverseAddress i) 0 (goFqdn m)
      let z := findPrivateZone i zone
      if z = zone then mappingMissingLoop exec zone fromD toD rs
      else
        match exec (.removeRRset z [p]) with
        | some e => ([.removeRRset z [p]], some e)
        | none =>
          match exec (.insert z [p]) with
          | some e => ([.removeRRset z [p], .insert z [p]], some e)
          | none =>
            let t := mappingMissingLoop exec zone fromD toD rs
            (.removeRRset z [p] :: .insert z [p] :: t.1, t.2)

/-- `Service.UpdateMapping` (the `ttl` parameter is unused, as in the source). -/
def UpdateMapping (exec : Txn → Option String) (zone : String) (ttl : Nat)
    (fromD toD : Device) : List Txn × Option String :=
  let e := mappingExtraLoop exec zone fromD toD fromD.Mapping
  match e.2 with
  | some err => (e.1, some err)
  | none =>
    let m := mappingMissingLoop exec zone fromD toD toD.Mapping
    (e.1 ++ m.1, m.2)

/-- `Service.Update`: the three sub-reconciliations in order, aborting on
the first failure. -/
def Update (exec : Txn → Option String) (zone : String) (ttl : Nat)
    (fromD toD : Device) : List Txn × Option String :=
  let r := UpdateReverse exec zone ttl fromD toD
  match r.2 with
  | some err => (r.1, some err)
  | none =>
    let a := UpdateAlias exec zone ttl fromD toD
    match a.2 with
    | some err => (r.1 ++ a.1, some err)
    | none =>
      let m := UpdateMapping exec zone ttl fromD toD
      (r.1 ++ a.1 ++ m.1, m.2)

/-! ### Concrete fixtures used by witnesses and counterexamples -/

/-- A transfer oracle holding the record set of §8's correlation example:
an address record for `host.zone.`, an alias `alt.zone. -> host.zone.`, and
a reverse pointer `192.168.1.5 -> alt.zone.`. -/
def transferC4 : String → Except String (List RR) := fun z =>
  if z == "zone." then
    .ok [RR.A "host.zone." ⟨10, 1, 2, 3⟩, RR.CNAME "alt.zone." "host.zone."]
  else if z == "168.192.in-addr.arpa." then
    .ok [RR.PTR "5.1.168.192.in-addr.arpa." "alt.zone."]
  else .ok []

/-- The device the correlation example must produce. -/
def deviceC4 : Device :=
  { Name := "host.zone.", IP := some ⟨10, 1, 2, 3⟩,
    Aliases := ["alt.zone."], Mapping := [("alt.zone.", ⟨192, 168, 1, 5⟩)] }

/-- A transfer oracle that fails on the zone `"bad."` and succeeds (with an
empty record set) everywhere else. -/
def transferBad : String → Except String (List RR) := fun z =>
  if z == "bad." then .error "transfer failed" else .ok []

/-- The device of the repository's LOC test. -/
def locDevice : Device :=
  { Latitude := -41.290438888888886, Longitude := 174.7815961111111, Height := 21 }

/-! ### Invariant predicates over device maps -/

/-- Each value of the device map carries its own key as its name. -/
def NameKey (m : List (String × Device)) : Prop :=
  ∀ p ∈ m, p.2.Name = p.1

/-- No recorded alias is the key of a device in the map. -/
def AliasesOk (K : List String) (m : List (String × Device)) : Prop :=
  ∀ p ∈ m, ∀ a ∈ p.2.Aliases, a ∉ K

/-! ## Lemmas -/

/-! ### Go map lemmas -/

theorem mkeys_upsert {α : Type} (m : List (String × α)) (k : String) (v : α) :
    mkeys (upsert m k v) = if k ∈ mkeys m then mkeys m else mkeys m ++ [k] := by
  induction m with
  | nil => simp [upsert, mkeys]
  | cons p t ih =>
    obtain ⟨k', v'⟩ := p
    by_cases hk : k' = k
    · subst hk
      simp [upsert, mkeys]
    · simp only [upsert, if_neg hk, mkeys, List.map_cons] at *
      rw [ih]
      by_cases hmem : k ∈ List.map Prod.fst t
      · simp [hmem, Ne.symm hk]
      · simp [hmem, Ne.symm hk]

theorem nodup_mkeys_upsert {α : Type} {m : List (String × α)} (k : String) (v : α)
    (h : (mkeys m).Nodup) : (mkeys (upsert m k v)).Nodup := by
  rw [mkeys_upsert]
  by_cases hmem : k ∈ mkeys m
  · simpa [hmem]
  · simp only [hmem, if_false]
    simp [List.nodup_append, h, hmem]

theorem mem_upsert {α : Type} {m : List (String × α)} {k : String} {v : α}
    {p : String × α} (h : p ∈ upsert m k v) : p ∈ m ∨ p = (k, v) := by
  induction m with
  | nil =>
    simp only [upsert, List.mem_singleton] at h
    exact Or.inr h
  | cons q t ih =>
    obtain ⟨k', v'⟩ := q
    by_cases hk : k' = k
    · subst hk
      simp [upsert] at h
      rcases h with h1 | h2
      · exact Or.inr (by simp [h1])
      · exact Or.inl (List.mem_cons_of_mem _ h2)
    · simp only [upsert, if_neg hk, List.mem_cons] at h
      rcases h with h1 | h2
      · exact Or.inl (by simp [h1])
      · rcases ih h2 with h' | h'
        · exact Or.inl (List.mem_cons_of_mem _ h')
        · exact Or.inr h'

theorem mfind_eq_none_iff {α : Type} (m : List (String × α)) (k : String) :
    mfind m k = none ↔ k ∉ mkeys m := by
  induction m with
  | nil => simp [mfind, mkeys]
  | cons q t ih =>
    obtain ⟨k', v'⟩ := q
    by_cases hk : k' = k
    · subst hk
      simp [mfind, mkeys]
    · simp only [mfind, if_neg hk, mkeys, List.map_cons, List.mem_cons]
      rw [ih]
      simp [mkeys, Ne.symm hk]

theorem mfind_some_mem {α : Type} {m : List (String × α)} {k : String} {v : α}
    (h : mfind m k = some v) : (k, v) ∈ m := by
  induction m with
  | nil => simp [mfind] at h
  | cons q t ih =>
    obtain ⟨k', v'⟩ := q
    by_cases hk : k' = k
    · subst hk
      simp [mfind] at h
      simp [h]
    · simp only [mfind, if_neg hk] at h
      simp [ih h]

theorem mfind_mem_keys {α : Type} {m : List (String × α)} {k : String}
    (h : k ∈ mkeys m) : ∃ v, mfind m k = some v := by
  rcases ho : mfind m k with _ | v
  · exact absurd ((mfind_eq_none_iff m k).mp ho) (by simp [h])
  · exact ⟨v, rfl⟩

/-! ### Claim C10 -/

/-- C10: device equality is reflexive — `d.Equal(d)` returns `true` for
every device, so diffing a snapshot against itself reports no change. -/
theorem equal_refl (d : Device) : d.Equal d = true := by
  rcases hL : d.Location with ⟨la, lo, al⟩
  simp [Device.Equal, Device.HasName, Device.HasAddress, Device.HasCode,
    Device.HasModel, Device.AtLocation, goEqualFold, ipEqual, hL]

/-! ### Claim C6 -/

/-- C6: `SetLocation` decodes the three 32-bit values exactly as the spec
formula states: latitude `(lat32 − 2^31)/3600000` above the equator
constant, `−((2^31 − lat32)/3600000)` otherwise; longitude symmetric
around the prime-meridian constant; height `alt32/100 − 100000`. -/
theorem setLocation_decodes (d : Device) (lat lon alt : Nat)
    (hlat : lat < 2 ^ 32) (hlon : lon < 2 ^ 32) (halt : alt < 2 ^ 32) :
    ((d.SetLocation lat lon alt).Latitude =
      if 2 ^ 31 < lat then ((lat : ℚ) - 2 ^ 31) / 3600000
      else -(((2 ^ 31 : ℚ) - (lat : ℚ)) / 3600000)) ∧
    ((d.SetLocation lat lon alt).Longitude =
      if 2 ^ 31 < lon then ((lon : ℚ) - 2 ^ 31) / 3600000
      else -(((2 ^ 31 : ℚ) - (lon : ℚ)) / 3600000)) ∧
    (d.SetLocation lat lon alt).Height = (alt : ℚ) / 100 - 100000 := by
  refine ⟨?_, ?_, ?_⟩
  · simp only [Device.SetLocation, LOC_EQUATOR, LOC_DEGREES]
    by_cases h : 2 ^ 31 < lat
    · rw [if_pos h, if_pos h]
      rw [Nat.cast_sub h.le]
      norm_num
    · rw [if_neg h, if_neg h]
      rw [Nat.cast_sub (by omega)]
      rw [div_neg]
      norm_num
  · simp only [Device.SetLocation, LOC_PRIMEMERIDIAN, LOC_DEGREES]
    by_cases h : 2 ^ 31 < lon
    · rw [if_pos h, if_pos h]
      rw [Nat.cast_sub h.le]
      norm_num
    · rw [if_neg h, if_neg h]
      rw [Nat.cast_sub (by omega)]
      rw [div_neg]
      norm_num
  · simp [Device.SetLocation, LOC_ALTITUDEBASE]

/-- C6 witness: the decode formula evaluated at a concrete in-range triple. -/
theorem setLocation_decodes_witness :
    (2151083648 : Nat) < 2 ^ 32 ∧
    (({} : Device).SetLocation 2151083648 2143883648 10000000).Latitude = 1 ∧
    (({} : Device).SetLocation 2151083648 2143883648 10000000).Longitude = -1 ∧
    (({} : Device).SetLocation 2151083648 2143883648 10000000).Height = 0 := by
  have h := setLocation_decodes {} 2151083648 2143883648 10000000
    (by norm_num) (by norm_num) (by norm_num)
  refine ⟨by norm_num, ?_, ?_, ?_⟩
  · rw [h.1]; norm_num
  · rw [h.2.1]; norm_num
  · rw [h.2.2]; norm_num

/-! ### Claim C9 -/

/-- C9: `Devices.Find` matches by exact, case-sensitive comparison, and
returns the first such device: any devices before the first exact match do
not match, an inventory with no exactly-named device yields `none`, and in
particular a device differing only in letter case is not found — although
`Device.HasName` does match it case-insensitively. -/
theorem find_exact_first :
    (∀ (l₁ l₂ : List Device) (d : Device) (name : String),
      d.Name = name → (∀ d' ∈ l₁, d'.Name ≠ name) →
      Devices.Find ⟨l₁ ++ d :: l₂⟩ name = some d) ∧
    (∀ (l : List Device) (name : String),
      (∀ d ∈ l, d.Name ≠ name) → Devices.Find ⟨l⟩ name = none) ∧
    (Devices.Find ⟨[{ Name := "Host.Zone." }]⟩ "host.zone." = none ∧
      ({ Name := "Host.Zone." } : Device).HasName "host.zone." = true) := by
  refine ⟨?_, ?_, by decide⟩
  · intro l₁ l₂ d name hd h₁
    simp only [Devices.Find, List.find?_append]
    have hnone : l₁.find? (fun s => s.Name == name) = none := by
      rw [List.find?_eq_none]
      intro x hx
      simp [h₁ x hx]
    rw [hnone, List.find?_cons_of_pos _ (by simp [hd])]
    rfl
  · intro l name h
    simp only [Devices.Find]
    rw [List.find?_eq_none]
    intro x hx
    simp [h x hx]

/-- C9 witness: the exact-match clause applied to a concrete inventory. -/
theorem find_exact_first_witness :
    Devices.Find ⟨[{ Name := "abc.zone." }]⟩ "zzz.zone." = none :=
  find_exact_first.2.1 [{ Name := "abc.zone." }] "zzz.zone." (by decide)

/-! ### Claim C3 -/

theorem hasReverse_of_mem {d : Device} {r : IPv4} (h : r ∈ d.Reverse) :
    d.HasReverse r = true := by
  simp only [Device.HasReverse, List.any_eq_true]
  exact ⟨r, h, by simp⟩

theorem hasAlias_of_mem {d : Device} {a : String} (h : a ∈ d.Aliases) :
    d.HasAlias a = true := by
  simp only [Device.HasAlias, List.any_eq_true]
  exact ⟨a, h, by simp⟩

theorem hasMapping_of_mem {d : Device} {p : String × IPv4} (h : p ∈ d.Mapping) :
    d.HasMapping p.1 p.2 = true := by
  simp only [Device.HasMapping, List.any_eq_true]
  exact ⟨p, h, by simp⟩

theorem reverseExtraLoop_all_present (exec : Txn → Option String) (zone : String)
    (fromD toD : Device) (l : List IPv4) (h : ∀ r ∈ l, toD.HasReverse r = true) :
    reverseExtraLoop exec zone fromD toD l = ([], none) := by
  induction l with
  | nil => rfl
  | cons r rs ih =>
    have hr := h r (List.mem_cons_self r rs)
    simp only [reverseExtraLoop, hr, if_true]
    exact ih fun x hx => h x (List.mem_cons_of_mem _ hx)

theorem reverseMissingLoop_all_present (exec : Txn → Option String) (zone : String)
    (ttl : Nat) (fromD toD : Device) (l : List IPv4)
    (h : ∀ r ∈ l, fromD.HasReverse r = true) :
    reverseMissingLoop exec zone ttl fromD toD l = ([], none) := by
  induction l with
  | nil => rfl
  | cons r rs ih =>
    have hr := h r (List.mem_cons_self r rs)
    simp only [reverseMissingLoop, hr, if_true]
    exact ih fun x hx => h x (List.mem_cons_of_mem _ hx)

theorem aliasExtraLoop_all_present (exec : Txn → Option String) (zone : String)
    (fromD toD : Device) (l : List String) (h : ∀ r ∈ l, toD.HasAlias r = true) :
    aliasExtraLoop exec zone fromD toD l = ([], none) := by
  induction l with
  | nil => rfl
  | cons r rs ih =>
    have hr := h r (List.mem_cons_self r rs)
    simp only [aliasExtraLoop, hr, if_true]
    exact ih fun x hx => h x (List.mem_cons_of_mem _ hx)

theorem aliasMissingLoop_all_present (exec : Txn → Option String) (zone : String)
    (fromD toD : Device) (l : List String) (h : ∀ r ∈ l, fromD.HasAlias r = true) :
    aliasMissingLoop exec zone fromD toD l = ([], none) := by
  induction l with
  | nil => rfl
  | cons r rs ih =>
    have hr := h r (List.mem_cons_self r rs)
    simp only [aliasMissingLoop, hr, if_true]
    exact ih fun x hx => h x (List.mem_cons_of_mem _ hx)

theorem mappingExtraLoop_all_present (exec : Txn → Option String) (zone : String)
    (fromD toD : Device) (l : List (String × IPv4))
    (h : ∀ p ∈ l, toD.HasMapping p.1 p.2 = true) :
    mappingExtraLoop exec zone fromD toD l = ([], none) := by
  induction l with
  | nil => rfl
  | cons p rs ih =>
    obtain ⟨m, i⟩ := p
    have hr := h (m, i) (List.mem_cons_self _ rs)
    simp only [mappingExtraLoop, hr, if_true]
    exact ih fun x hx => h x (List.mem_cons_of_mem _ hx)

theorem mappingMissingLoop_all_present (exec : Txn → Option String) (zone : String)
    (fromD toD : Device) (l : List (String × IPv4))
    (h : ∀ p ∈ l, fromD.HasMapping p.1 p.2 = true) :
    mappingMissingLoop exec zone fromD toD l = ([], none) := by
  induction l with
  | nil => rfl
  | cons p rs ih =>
    obtain ⟨m, i⟩ := p
    have hr := h (m, i) (List.mem_cons_self _ rs)
    simp only [mappingMissingLoop, hr, if_true]
    exact ih fun x hx => h x (List.mem_cons_of_mem _ hx)

/-- C3: reconciling a device against an identical snapshot issues no
transactions in any of the three sub-reconciliations and succeeds. -/
theorem update_self_no_transactions (exec : Txn → Option String) (zone : String)
    (ttl : Nat) (d : Device) : Update exec zone ttl d d = ([], none) := by
  have hre := reverseExtraLoop_all_present exec zone d d d.Reverse
    (fun r hr => hasReverse_of_mem hr)
  have hrm := reverseMissingLoop_all_present exec zone ttl d d d.Reverse
    (fun r hr => hasReverse_of_mem hr)
  have hae := aliasExtraLoop_all_present exec zone d d d.Aliases
    (fun a ha => hasAlias_of_mem ha)
  have ham := aliasMissingLoop_all_present exec zone d d d.Aliases
    (fun a ha => hasAlias_of_mem ha)
  have hme := mappingExtraLoop_all_present exec zone d d d.Mapping
    (fun p hp => hasMapping_of_mem hp)
  have hmm := mappingMissingLoop_all_present exec zone d d d.Mapping
    (fun p hp => hasMapping_of_mem hp)
  simp [Update, UpdateReverse, UpdateAlias, UpdateMapping, hre, hrm, hae, ham,
    hme, hmm]

/-! ### Claim C1 -/

/-- The transactions issued with an always-succeeding exchange by the
"MISSING ALIAS" loop: an idempotent removal followed by an insertion, per
alias absent from `fromD` — each CNAME targeting `fromD`'s name. -/
theorem aliasMissingLoop_ok (zone : String) (fromD toD : Device) :
    ∀ l : List String,
      aliasMissingLoop (fun _ => none) zone fromD toD l =
        (l.flatMap fun r =>
          if fromD.HasAlias r then []
          else
            [.removeRRset zone [.cname (goFqdn r) 0 (goFqdn fromD.Name)],
             .insert zone [.cname (goFqdn r) 0 (goFqdn fromD.Name)]],
         none) := by
  intro l
  induction l with
  | nil => rfl
  | cons r rs ih =>
    by_cases hr : fromD.HasAlias r
    · simp [aliasMissingLoop, hr, ih]
    · simp only [Bool.not_eq_true] at hr
      simp [aliasMissingLoop, hr, ih]

/-- The "EXTRA ALIAS" loop never fails when the exchange always succeeds. -/
theorem aliasExtraLoop_ok_snd (zone : String) (fromD toD : Device) :
    ∀ l : List String, (aliasExtraLoop (fun _ => none) zone fromD toD l).2 = none := by
  intro l
  induction l with
  | nil => rfl
  | cons r rs ih =>
    by_cases hr : toD.HasAlias r
    · simpa [aliasExtraLoop, hr] using ih
    · simp only [Bool.not_eq_true] at hr
      simpa [aliasExtraLoop, hr] using ih

/-- C1 counterexample: reconciling towards a device named `new.zone.` that
gains the alias `alt.zone.` performs the removal and insertion, but the
inserted CNAME targets `old.zone.` — the `from` name — not `to`'s name. -/
theorem updateAlias_inserts_from_name_counterexample :
    (UpdateAlias (fun _ => none) "zone." 300 { Name := "old.zone." }
        { Name := "new.zone.", Aliases := ["alt.zone."] }).1 =
      [.removeRRset "zone." [.cname "alt.zone." 0 "old.zone."],
       .insert "zone." [.cname "alt.zone." 0 "old.zone."]] ∧
    ("old.zone." : String) ≠ "new.zone." := by
  refine ⟨by decide, by decide⟩

/-- C1 amended: for every alias present in `to` but absent from `from`, the
alias sub-reconciliation issues an idempotent removal immediately followed
by an insertion of a CNAME at that name — whose target is `from`'s name
(which coincides with `to`'s name exactly when the snapshots share a name). -/
theorem updateAlias_missing_insert (zone : String) (ttl : Nat)
    (fromD toD : Device) (a : String) (ha : a ∈ toD.Aliases)
    (hna : fromD.HasAlias a = false) :
    ∃ pre post,
      (UpdateAlias (fun _ => none) zone ttl fromD toD).1 =
        pre ++
          [.removeRRset zone [.cname (goFqdn a) 0 (goFqdn fromD.Name)],
           .insert zone [.cname (goFqdn a) 0 (goFqdn fromD.Name)]] ++
          post := by
  obtain ⟨l₁, l₂, hsplit⟩ := List.mem_iff_append.mp ha
  have hm := aliasMissingLoop_ok zone fromD toD toD.Aliases
  have he2 := aliasExtraLoop_ok_snd zone fromD toD fromD.Aliases
  rcases hE : aliasExtraLoop (fun _ => none) zone fromD toD fromD.Aliases
    with ⟨tr₁, res₁⟩
  have hres₁ : res₁ = none := by
    have := he2
    rw [hE] at this
    exact this
  subst hres₁
  refine ⟨tr₁ ++ (l₁.flatMap fun r =>
      if fromD.HasAlias r then []
      else
        [.removeRRset zone [.cname (goFqdn r) 0 (goFqdn fromD.Name)],
         .insert zone [.cname (goFqdn r) 0 (goFqdn fromD.Name)]]),
    (l₂.flatMap fun r =>
      if fromD.HasAlias r then []
      else
        [.removeRRset zone [.cname (goFqdn r) 0 (goFqdn fromD.Name)],
         .insert zone [.cname (goFqdn r) 0 (goFqdn fromD.Name)]]), ?_⟩
  rw [hsplit] at hm
  simp only [UpdateAlias, hE, hsplit, hm]
  rw [List.flatMap_append, List.flatMap_cons]
  simp [hna]

/-- C1 witness: the amended statement at the counterexample's input. -/
theorem updateAlias_missing_insert_witness :
    ∃ pre post,
      (UpdateAlias (fun _ => none) "zone." 300 { Name := "old.zone." }
          { Name := "new.zone.", Aliases := ["alt.zone."] }).1 =
        pre ++
          [.removeRRset "zone." [.cname (goFqdn "alt.zone.") 0 (goFqdn "old.zone.")],
           .insert "zone." [.cname (goFqdn "alt.zone.") 0 (goFqdn "old.zone.")]] ++
          post :=
  updateAlias_missing_insert "zone." 300 { Name := "old.zone." }
    { Name := "new.zone.", Aliases := ["alt.zone."] } "alt.zone."
    (by decide) (by decide)

/-! ### Claim C5 -/

theorem cm2sizeLoop_eq :
    ∀ fuel v e : Nat, v ≤ fuel →
      cm2sizeLoop fuel v e = (v / 10 ^ Nat.log 10 v, e + Nat.log 10 v) := by
  intro fuel
  induction fuel with
  | zero =>
    intro v e hv
    have hv0 : v = 0 := Nat.le_zero.mp hv
    subst hv0
    simp [cm2sizeLoop]
  | succ fuel ih =>
    intro v e hv
    by_cases h10 : 10 ≤ v
    · have hpos : 0 < Nat.log 10 v := Nat.log_pos (by norm_num) h10
      have hdiv : v / 10 < v := Nat.div_lt_self (by omega) (by omega)
      have hv' : v / 10 ≤ fuel := by omega
      simp only [cm2sizeLoop, ge_iff_le, h10, if_true]
      rw [ih (v / 10) (e + 1) hv']
      rw [Nat.log_div_base]
      have hfst : v / 10 / 10 ^ (Nat.log 10 v - 1) = v / 10 ^ Nat.log 10 v := by
        rw [Nat.div_div_eq_div_mul]
        congr 1
        rw [← pow_succ']
        congr 1
        omega
      rw [hfst]
      have hsnd : e + 1 + (Nat.log 10 v - 1) = e + Nat.log 10 v := by omega
      rw [hsnd]
    · have hlog : Nat.log 10 v = 0 :=
        Nat.log_eq_zero_iff.mpr (Or.inl (by omega))
      simp [cm2sizeLoop, h10, hlog]

theorem lor_mantissa_exponent :
    ∀ a : Nat, a < 16 → ∀ e : Nat, e < 16 → a * 16 ||| e = a * 16 + e := by
  decide

/-- C5 amended: `cm2size` packs `(mantissa << 4) | (exponent & 0xF)` where
the exponent is the number of divisions by 10 performed while the value is
at least 10 (i.e. `log₁₀`) and the mantissa is the single remaining digit;
with the fixed defaults the projected location record carries size byte
`0x14` (1·10⁴ cm = 100 m) and horizontal/vertical precision bytes `0x53`
(5·10³ cm = 50 m) — the values the repository's own test renders as
`"... 100m 50m 50m"`. -/
theorem cm2size_mantissa_exponent :
    (∀ cms : Nat,
      cm2size cms = cms / 10 ^ Nat.log 10 cms * 16 + Nat.log 10 cms % 16 ∧
      cms / 10 ^ Nat.log 10 cms < 10) ∧
    cm2size 10000 = 0x14 ∧ cm2size 5000 = 0x53 ∧
    ∀ d : Device,
      d.ToLOC.Size = 0x14 ∧ d.ToLOC.HorizPre = 0x53 ∧ d.ToLOC.VertPre = 0x53 := by
  refine ⟨?_, by decide, by decide, ?_⟩
  · intro cms
    have hloop := cm2sizeLoop_eq cms cms 0 (le_refl cms)
    have hmant : cms / 10 ^ Nat.log 10 cms < 10 := by
      have hlt : cms < 10 ^ (Nat.log 10 cms).succ :=
        Nat.lt_pow_succ_log_self (by norm_num) cms
      have hp : 0 < 10 ^ Nat.log 10 cms := Nat.pos_pow_of_pos _ (by norm_num)
      rw [Nat.div_lt_iff_lt_mul hp]
      calc cms < 10 ^ (Nat.log 10 cms).succ := hlt
        _ = 10 * 10 ^ Nat.log 10 cms := by rw [pow_succ']
    refine ⟨?_, hmant⟩
    simp only [cm2size, hloop]
    have h1 : cms / 10 ^ Nat.log 10 cms % 256 = cms / 10 ^ Nat.log 10 cms :=
      Nat.mod_eq_of_lt (by omega)
    have h2 : cms / 10 ^ Nat.log 10 cms * 16 % 256 = cms / 10 ^ Nat.log 10 cms * 16 :=
      Nat.mod_eq_of_lt (by omega)
    rw [h1, h2, Nat.zero_add]
    exact lor_mantissa_exponent _ (by omega) _ (Nat.mod_lt _ (by norm_num))
  · intro d
    rcases hL : d.Location with ⟨la, rest⟩
    refine ⟨?_, ?_, ?_⟩ <;> simp [Device.ToLOC, hL] <;> decide

/-- C5 counterexample: at the spec's own example device the size byte is
`0x14`, not the claimed `0x19`, and the precision bytes are `0x53`, not
`0x13`. -/
theorem toLOC_size_bytes_counterexample :
    locDevice.ToLOC.Size = 0x14 ∧ (0x14 : Nat) ≠ 0x19 ∧
    locDevice.ToLOC.HorizPre = 0x53 ∧ (0x53 : Nat) ≠ 0x13 ∧
    locDevice.ToLOC.VertPre = 0x53 := by
  refine ⟨by decide, by decide, by decide, by decide, by decide⟩

/-! ### Claim C2 -/

theorem data_append (s t : String) : (s ++ t).data = s.data ++ t.data := rfl

theorem prefix_dot_iff :
    ∀ p xs q rest : List Char, (∀ c ∈ p, c ≠ '.') → (∀ c ∈ xs, c ≠ '.') →
      ((p ++ '.' :: q) <+: (xs ++ '.' :: rest) ↔ p = xs ∧ q <+: rest) := by
  intro p
  induction p with
  | nil =>
    intro xs q rest hp hx
    cases xs with
    | nil => simp [List.cons_prefix_cons]
    | cons x xs' =>
      have hxd : x ≠ '.' := hx x (List.mem_cons_self _ _)
      simp [List.cons_prefix_cons, Ne.symm hxd]
  | cons c p' ih =>
    intro xs q rest hp hx
    have hcd : c ≠ '.' := hp c (List.mem_cons_self _ _)
    cases xs with
    | nil => simp [List.cons_prefix_cons, hcd]
    | cons x xs' =>
      have hp' : ∀ a ∈ p', a ≠ '.' := fun a hc => hp a (List.mem_cons_of_mem _ hc)
      have hx' : ∀ a ∈ xs', a ≠ '.' := fun a hc => hx a (List.mem_cons_of_mem _ hc)
      rw [List.cons_append, List.cons_append, List.cons_prefix_cons,
        ih xs' q rest hp' hx']
      constructor
      · rintro ⟨h1, h2, h3⟩
        exact ⟨by rw [h1, h2], h3⟩
      · rintro ⟨h1, h3⟩
        injection h1 with h1a h1b
        exact ⟨h1a, h1b, h3⟩

set_option maxRecDepth 10000 in
theorem repr_no_dot : ∀ n : Nat, n < 256 → ∀ c ∈ (Nat.repr n).data, c ≠ '.' := by
  decide

set_option maxRecDepth 10000 in
theorem repr_eqs : ∀ n : Nat, n < 256 →
    ((Nat.repr n = "10" ↔ n = 10) ∧ (Nat.repr n = "172" ↔ n = 172) ∧
     (Nat.repr n = "16" ↔ n = 16) ∧ (Nat.repr n = "192" ↔ n = 192) ∧
     (Nat.repr n = "168" ↔ n = 168)) := by
  decide

theorem render_data (ip : IPv4) :
    ip.render.data =
      (Nat.repr ip.a).data ++ '.' :: ((Nat.repr ip.b).data ++ '.' ::
        ((Nat.repr ip.c).data ++ '.' :: (Nat.repr ip.d).data)) := by
  have hdot : ("." : String).data = ['.'] := rfl
  simp [IPv4.render, goJoin, data_append, hdot, List.append_assoc]

theorem strHasPre_render_ten (ip : IPv4) (ha : ip.a < 256) :
    strHasPre ip.render "10." = true ↔ ip.a = 10 := by
  rw [strHasPre, List.isPrefixOf_iff_prefix]
  have hd : ("10." : String).data = "10".data ++ '.' :: ([] : List Char) := rfl
  rw [hd, render_data]
  rw [prefix_dot_iff _ _ _ _ (by decide) (repr_no_dot ip.a ha)]
  simp only [List.nil_prefix, and_true]
  constructor
  · intro he
    exact ((repr_eqs ip.a ha).1).mp (String.ext he.symm)
  · intro h10
    rw [((repr_eqs ip.a ha).1).mpr h10]

theorem strHasPre_render_seventeen (ip : IPv4) (ha : ip.a < 256) (hb : ip.b < 256) :
    strHasPre ip.render "172.16." = true ↔ ip.a = 172 ∧ ip.b = 16 := by
  rw [strHasPre, List.isPrefixOf_iff_prefix]
  have hd : ("172.16." : String).data =
      "172".data ++ '.' :: ("16".data ++ '.' :: ([] : List Char)) := rfl
  rw [hd, render_data]
  rw [prefix_dot_iff _ _ _ _ (by decide) (repr_no_dot ip.a ha)]
  rw [prefix_dot_iff _ _ _ _ (by decide) (repr_no_dot ip.b hb)]
  simp only [List.nil_prefix, and_true]
  constructor
  · rintro ⟨h1, h2⟩
    exact ⟨((repr_eqs ip.a ha).2.1).mp (String.ext h1.symm),
      ((repr_eqs ip.b hb).2.2.1).mp (String.ext h2.symm)⟩
  · rintro ⟨h1, h2⟩
    rw [((repr_eqs ip.a ha).2.1).mpr h1, ((repr_eqs ip.b hb).2.2.1).mpr h2]
    exact ⟨rfl, rfl⟩

theorem strHasPre_render_oneninetwo (ip : IPv4) (ha : ip.a < 256) (hb : ip.b < 256) :
    strHasPre ip.render "192.168." = true ↔ ip.a = 192 ∧ ip.b = 168 := by
  rw [strHasPre, List.isPrefixOf_iff_prefix]
  have hd : ("192.168." : String).data =
      "192".data ++ '.' :: ("168".data ++ '.' :: ([] : List Char)) := rfl
  rw [hd, render_data]
  rw [prefix_dot_iff _ _ _ _ (by decide) (repr_no_dot ip.a ha)]
  rw [prefix_dot_iff _ _ _ _ (by decide) (repr_no_dot ip.b hb)]
  simp only [List.nil_prefix, and_true]
  constructor
  · rintro ⟨h1, h2⟩
    exact ⟨((repr_eqs ip.a ha).2.2.2.1).mp (String.ext h1.symm),
      ((repr_eqs ip.b hb).2.2.2.2).mp (String.ext h2.symm)⟩
  · rintro ⟨h1, h2⟩
    rw [((repr_eqs ip.a ha).2.2.2.1).mpr h1, ((repr_eqs ip.b hb).2.2.2.2).mpr h2]
    exact ⟨rfl, rfl⟩

theorem reverseExtraLoop_zone_ne (exec : Txn → Option String) (zone : String)
    (fromD toD : Device) :
    ∀ l tx, tx ∈ (reverseExtraLoop exec zone fromD toD l).1 → tx.zone ≠ zone := by
  intro l
  induction l with
  | nil => intro tx h; simp [reverseExtraLoop] at h
  | cons r rs ih =>
    intro tx h
    cases hb : toD.HasReverse r with
    | true =>
      rw [reverseExtraLoop, if_pos hb] at h
      exact ih tx h
    | false =>
      by_cases hz : findPrivateZone r zone = zone
      · rw [reverseExtraLoop, if_neg (by simp [hb]), if_pos hz] at h
        exact ih tx h
      · rw [reverseExtraLoop, if_neg (by simp [hb]), if_neg hz] at h
        cases he : exec (.removeRRset (findPrivateZone r zone)
            [.ptr (reverseAddress r) 0 (goFqdn fromD.Name)]) with
        | some e =>
          simp only [he] at h
          simp only [List.mem_singleton] at h
          rw [h]
          exact hz
        | none =>
          simp only [he] at h
          simp only [List.mem_cons] at h
          rcases h with h | h
          · rw [h]; exact hz
          · exact ih tx h

theorem reverseMissingLoop_zone_ne (exec : Txn → Option String) (zone : String)
    (ttl : Nat) (fromD toD : Device) :
    ∀ l tx, tx ∈ (reverseMissingLoop exec zone ttl fromD toD l).1 → tx.zone ≠ zone := by
  intro l
  induction l with
  | nil => intro tx h; simp [reverseMissingLoop] at h
  | cons r rs ih =>
    intro tx h
    cases hb : fromD.HasReverse r with
    | true =>
      rw [reverseMissingLoop, if_pos hb] at h
      exact ih tx h
    | false =>
      by_cases hz : findPrivateZone r zone = zone
      · rw [reverseMissingLoop, if_neg (by simp [hb]), if_pos hz] at h
        exact ih tx h
      · rw [reverseMissingLoop, if_neg (by simp [hb]), if_neg hz] at h
        cases he : exec (.removeRRset (findPrivateZone r zone)
            [.ptr (reverseAddress r) 0 ""]) with
        | some e =>
          simp only [he] at h
          simp only [List.mem_singleton] at h
          rw [h]; exact hz
        | none =>
          simp only [he] at h
          cases he' : exec (.insert (findPrivateZone r zone)
              [.ptr (reverseAddress r) ttl (goFqdn toD.Name)]) with
          | some e =>
            simp only [he'] at h
            simp only [List.mem_cons, List.mem_singleton] at h
            rcases h with h | h | h
            · rw [h]; exact hz
            · rw [h]; exact hz
            · simp at h
          | none =>
            simp only [he'] at h
            simp only [List.mem_cons] at h
            rcases h with h | h | h
            · rw [h]; exact hz
            · rw [h]; exact hz
            · exact ih tx h

theorem mappingExtraLoop_zone_ne (exec : Txn → Option String) (zone : String)
    (fromD toD : Device) :
    ∀ l tx, tx ∈ (mappingExtraLoop exec zone fromD toD l).1 → tx.zone ≠ zone := by
  intro l
  induction l with
  | nil => intro tx h; simp [mappingExtraLoop] at h
  | cons p rs ih =>
    obtain ⟨m, i⟩ := p
    intro tx h
    cases hb : toD.HasMapping m i with
    | true =>
      rw [mappingExtraLoop, if_pos hb] at h
      exact ih tx h
    | false =>
      by_cases hz : findPrivateZone i zone = zone
      · rw [mappingExtraLoop, if_neg (by simp [hb]), if_pos hz] at h
        exact ih tx h
      · rw [mappingExtraLoop, if_neg (by simp [hb]), if_neg hz] at h
        cases he : exec (.removeRRset (findPrivateZone i zone)
            [.ptr (reverseAddress i) 0 (goFqdn m)]) with
        | some e =>
          simp only [he] at h
          simp only [List.mem_singleton] at h
          rw [h]; exact hz
        | none =>
          simp only [he] at h
          simp only [List.mem_cons] at h
          rcases h with h | h
          · rw [h]; exact hz
          · exact ih tx h

theorem mappingMissingLoop_zone_ne (exec : Txn → Option String) (zone : String)
    (fromD toD : Device) :
    ∀ l tx, tx ∈ (mappingMissingLoop exec zone fromD toD l).1 → tx.zone ≠ zone := by
  intro l
  induction l with
  | nil => intro tx h; simp [mappingMissingLoop] at h
  | cons p rs ih =>
    obtain ⟨m, i⟩ := p
    intro tx h
    cases hb : fromD.HasMapping m i with
    | true =>
      rw [mappingMissingLoop, if_pos hb] at h
      exact ih tx h
    | false =>
      by_cases hz : findPrivateZone i zone = zone
      · rw [mappingMissingLoop, if_neg (by simp [hb]), if_pos hz] at h
        exact ih tx h
      · rw [mappingMissingLoop, if_neg (by simp [hb]), if_neg hz] at h
        cases he : exec (.removeRRset (findPrivateZone i zone)
            [.ptr (reverseAddress i) 0 (goFqdn m)]) with
        | some e =>
          simp only [he] at h
          simp only [List.mem_singleton] at h
          rw [h]; exact hz
        | none =>
          simp only [he] at h
          cases he' : exec (.insert (findPrivateZone i zone)
              [.ptr (reverseAddress i) 0 (goFqdn m)]) with
          | some e =>
            simp only [he'] at h
            simp only [List.mem_cons, List.mem_singleton] at h
            rcases h with h | h | h
            · rw [h]; exact hz
            · rw [h]; exact hz
            · simp at h
          | none =>
            simp only [he'] at h
            simp only [List.mem_cons] at h
            rcases h with h | h | h
            · rw [h]; exact hz
            · rw [h]; exact hz
            · exact ih tx h

theorem updateReverse_zone_ne (exec : Txn → Option String) (zone : String)
    (ttl : Nat) (fromD toD : Device) :
    ∀ tx ∈ (UpdateReverse exec zone ttl fromD toD).1, tx.zone ≠ zone := by
  intro tx h
  rcases hE : reverseExtraLoop exec zone fromD toD fromD.Reverse with ⟨tr, res⟩
  have hter : ∀ t ∈ tr, Txn.zone t ≠ zone := by
    intro t ht
    have h' := reverseExtraLoop_zone_ne exec zone fromD toD fromD.Reverse t
    rw [hE] at h'
    exact h' ht
  cases res with
  | some e =>
    simp only [UpdateReverse, hE] at h
    exact hter tx h
  | none =>
    simp only [UpdateReverse, hE, List.mem_append] at h
    rcases h with h | h
    · exact hter tx h
    · exact reverseMissingLoop_zone_ne exec zone ttl fromD toD toD.Reverse tx h

theorem updateMapping_zone_ne (exec : Txn → Option String) (zone : String)
    (ttl : Nat) (fromD toD : Device) :
    ∀ tx ∈ (UpdateMapping exec zone ttl fromD toD).1, tx.zone ≠ zone := by
  intro tx h
  rcases hE : mappingExtraLoop exec zone fromD toD fromD.Mapping with ⟨tr, res⟩
  have hter : ∀ t ∈ tr, Txn.zone t ≠ zone := by
    intro t ht
    have h' := mappingExtraLoop_zone_ne exec zone fromD toD fromD.Mapping t
    rw [hE] at h'
    exact h' ht
  cases res with
  | some e =>
    simp only [UpdateMapping, hE] at h
    exact hter tx h
  | none =>
    simp only [UpdateMapping, hE, List.mem_append] at h
    rcases h with h | h
    · exact hter tx h
    · exact mappingMissingLoop_zone_ne exec zone fromD toD toD.Mapping tx h

/-- C2 amended: `findPrivateZone` routes `10.0.0.0/8` to
`10.in-addr.arpa.`, `172.16.0.0/16` — not the claimed `/12` — to
`16.172.in-addr.arpa.` (the match is on the dotted prefix "172.16."),
`192.168.0.0/16` to `168.192.in-addr.arpa.`, and every other address to the
caller's zone; and every transaction issued by `UpdateReverse` or
`UpdateMapping` is directed at a zone different from the caller's, so an
address whose computed zone equals the caller's is skipped entirely. -/
theorem privateZone_routing (ip : IPv4) (zone : String)
    (ha : ip.a < 256) (hb : ip.b < 256) :
    ((ip.a = 10 → findPrivateZone ip zone = "10.in-addr.arpa.") ∧
     (ip.a = 172 ∧ ip.b = 16 → findPrivateZone ip zone = "16.172.in-addr.arpa.") ∧
     (ip.a = 192 ∧ ip.b = 168 → findPrivateZone ip zone = "168.192.in-addr.arpa.") ∧
     (ip.a ≠ 10 → ¬(ip.a = 172 ∧ ip.b = 16) → ¬(ip.a = 192 ∧ ip.b = 168) →
       findPrivateZone ip zone = zone)) ∧
    ∀ (exec : Txn → Option String) (ttl : Nat) (fromD toD : Device),
      (∀ tx ∈ (UpdateReverse exec zone ttl fromD toD).1, tx.zone ≠ zone) ∧
      (∀ tx ∈ (UpdateMapping exec zone ttl fromD toD).1, tx.zone ≠ zone) := by
  have h10 := strHasPre_render_ten ip ha
  have h172 := strHasPre_render_seventeen ip ha hb
  have h192 := strHasPre_render_oneninetwo ip ha hb
  refine ⟨⟨?_, ?_, ?_, ?_⟩, ?_⟩
  · intro h
    simp [findPrivateZone, h10, h]
  · rintro ⟨h1, h2⟩
    simp [findPrivateZone, h10, h172, h1, h2]
  · rintro ⟨h1, h2⟩
    simp [findPrivateZone, h10, h172, h192, h1, h2]
  · intro h1 h2 h3
    simp [findPrivateZone, h10, h172, h192, h1, h2, h3]
  · intro exec ttl fromD toD
    exact ⟨updateReverse_zone_ne exec zone ttl fromD toD,
      updateMapping_zone_ne exec zone ttl fromD toD⟩

/-- C2 counterexample: `172.17.0.1` lies in `172.16.0.0/12` but is routed
to the caller's zone — and therefore skipped — rather than to
`16.172.in-addr.arpa.` as the claim states. -/
theorem privateZone_slash12_counterexample :
    (16 ≤ 17 ∧ 17 < 32) ∧
    findPrivateZone ⟨172, 17, 0, 1⟩ "zone.example." = "zone.example." ∧
    "zone.example." ≠ "16.172.in-addr.arpa." := by
  refine ⟨by decide, by decide, by decide⟩

/-- C2 witness: the routing statement applied at `192.168.1.5`. -/
theorem privateZone_routing_witness :
    findPrivateZone ⟨192, 168, 1, 5⟩ "zone." = "168.192.in-addr.arpa." :=
  (privateZone_routing ⟨192, 168, 1, 5⟩ "zone." (by norm_num)
    (by norm_num)).1.2.2.1 ⟨rfl, rfl⟩

/-! ### Claim C8 -/

theorem collectPtrs_error_of (transfer : String → Except String (List RR)) :
    ∀ (l : List String) (acc : List (String × String)) (z e : String),
      z ∈ l → transfer z = .error e →
      ∃ e', collectPtrs transfer l acc = .error e' := by
  intro l
  induction l with
  | nil => intro acc z e hz; simp at hz
  | cons z' zs ih =>
    intro acc z e hz he
    cases ht : transfer z' with
    | error e'' => exact ⟨e'', by simp [collectPtrs, ht]⟩
    | ok rr =>
      rcases List.mem_cons.mp hz with hz' | hz'
      · rw [hz'] at he
        rw [he] at ht
        exact absurd ht (by simp)
      · obtain ⟨e', h'⟩ := ih (extractPtrs z' rr acc) z e hz' he
        exact ⟨e', by simp [collectPtrs, ht, h']⟩

theorem collectRRs_error_of (transfer : String → Except String (List RR)) :
    ∀ (l : List String) (acc : List RR) (z e : String),
      z ∈ l → transfer z = .error e →
      ∃ e', collectRRs transfer l acc = .error e' := by
  intro l
  induction l with
  | nil => intro acc z e hz; simp at hz
  | cons z' zs ih =>
    intro acc z e hz he
    cases ht : transfer z' with
    | error e'' => exact ⟨e'', by simp [collectRRs, ht]⟩
    | ok rr =>
      rcases List.mem_cons.mp hz with hz' | hz'
      · rw [hz'] at he
        rw [he] at ht
        exact absurd ht (by simp)
      · obtain ⟨e', h'⟩ := ih (acc ++ rr) z e hz' he
        exact ⟨e', by simp [collectRRs, ht, h']⟩

theorem collectPtrs_first_error (transfer : String → Except String (List RR))
    (z e : String) (he : transfer z = .error e)
    (hok : ∀ z', z' ≠ z → (transfer z').isOk = true) :
    ∀ (l : List String) (acc : List (String × String)), z ∈ l →
      collectPtrs transfer l acc = .error e := by
  intro l
  induction l with
  | nil => intro acc hz; simp at hz
  | cons z' zs ih =>
    intro acc hz
    by_cases hz' : z' = z
    · subst hz'
      simp [collectPtrs, he]
    · have h1 := hok z' hz'
      cases ht : transfer z' with
      | error e'' => rw [ht] at h1; simp [Except.isOk, Except.toBool] at h1
      | ok rr =>
        have hztail : z ∈ zs := by
          rcases List.mem_cons.mp hz with h | h
          · exact absurd h.symm hz'
          · exact h
        simp [collectPtrs, ht, ih (extractPtrs z' rr acc) hztail]

theorem collectPtrs_all_ok (transfer : String → Except String (List RR))
    (z : String) (hok : ∀ z', z' ≠ z → (transfer z').isOk = true) :
    ∀ (l : List String) (acc : List (String × String)), z ∉ l →
      ∃ ptrs, collectPtrs transfer l acc = .ok ptrs := by
  intro l
  induction l with
  | nil => intro acc _; exact ⟨acc, rfl⟩
  | cons z' zs ih =>
    intro acc hz
    have hz' : z' ≠ z := fun h => hz (by simp [h])
    have h1 := hok z' hz'
    cases ht : transfer z' with
    | error e'' => rw [ht] at h1; simp [Except.isOk, Except.toBool] at h1
    | ok rr =>
      obtain ⟨ptrs, h'⟩ := ih (extractPtrs z' rr acc) (fun h => hz (by simp [h]))
      exact ⟨ptrs, by simp [collectPtrs, ht, h']⟩

theorem collectRRs_first_error (transfer : String → Except String (List RR))
    (z e : String) (he : transfer z = .error e)
    (hok : ∀ z', z' ≠ z → (transfer z').isOk = true) :
    ∀ (l : List String) (acc : List RR), z ∈ l →
      collectRRs transfer l acc = .error e := by
  intro l
  induction l with
  | nil => intro acc hz; simp at hz
  | cons z' zs ih =>
    intro acc hz
    by_cases hz' : z' = z
    · subst hz'
      simp [collectRRs, he]
    · have h1 := hok z' hz'
      cases ht : transfer z' with
      | error e'' => rw [ht] at h1; simp [Except.isOk, Except.toBool] at h1
      | ok rr =>
        have hztail : z ∈ zs := by
          rcases List.mem_cons.mp hz with h | h
          · exact absurd h.symm hz'
          · exact h
        simp [collectRRs, ht, ih (acc ++ rr) hztail]

/-- C8: if the transfer of any zone — forward or reverse — fails, the whole
build returns an error and hence no (partial) device list; and when every
other transfer succeeds, the returned error is exactly the failing zone's. -/
theorem serviceList_aborts_on_transfer_error
    (transfer : String → Except String (List RR)) (zones reverse : List String)
    (z e : String) (hz : z ∈ reverse ∨ z ∈ zones)
    (he : transfer z = .error e) :
    (∃ e', ServiceList transfer zones reverse = .error e') ∧
    ((∀ z', z' ≠ z → (transfer z').isOk = true) →
      ServiceList transfer zones reverse = .error e) := by
  constructor
  · rcases hz with hz | hz
    · obtain ⟨e', h'⟩ := collectPtrs_error_of transfer reverse [] z e hz he
      exact ⟨e', by simp [ServiceList, h']⟩
    · cases hp : collectPtrs transfer reverse [] with
      | error e' => exact ⟨e', by simp [ServiceList, hp]⟩
      | ok ptrs =>
        obtain ⟨e', h'⟩ := collectRRs_error_of transfer zones [] z e hz he
        exact ⟨e', by simp [ServiceList, hp, h']⟩
  · intro hok
    by_cases hrev : z ∈ reverse
    · have h' := collectPtrs_first_error transfer z e he hok reverse [] hrev
      simp [ServiceList, h']
    · have hzin : z ∈ zones := by
        rcases hz with h | h
        · exact absurd h hrev
        · exact h
      obtain ⟨ptrs, hp⟩ := collectPtrs_all_ok transfer z hok reverse [] hrev
      have h' := collectRRs_first_error transfer z e he hok zones [] hzin
      simp [ServiceList, hp, h']

/-- C8 witness: a failing reverse-zone transfer aborts the build with its
error. -/
theorem serviceList_aborts_witness :
    ServiceList transferBad ["zone."] ["bad."] = .error "transfer failed" :=
  (serviceList_aborts_on_transfer_error transferBad ["zone."] ["bad."]
    "bad." "transfer failed" (Or.inl (by decide)) (by rfl)).2
    (fun z' h => by
      simp only [transferBad]
      rw [if_neg (by simpa using h)]
      rfl)

/-! ### The lexicographic string order used by `sort.Strings` -/

theorem charListLt_irrefl : ∀ l : List Char, charListLt l l = false := by
  intro l
  induction l with
  | nil => rfl
  | cons c t ih => simp [charListLt, ih]

theorem charListLt_asymm :
    ∀ a b : List Char, charListLt a b = true → charListLt b a = false := by
  intro a
  induction a with
  | nil =>
    intro b h
    cases b with
    | nil => simp [charListLt] at h
    | cons d ds => simp [charListLt]
  | cons c cs ih =>
    intro b h
    cases b with
    | nil => simp [charListLt] at h
    | cons d ds =>
      simp only [charListLt] at h ⊢
      by_cases h1 : c.toNat < d.toNat
      · simp only [h1, if_true] at h
        have h2 : ¬d.toNat < c.toNat := by omega
        simp [h2, h1]
      · simp only [h1, if_false] at h ⊢
        by_cases h2 : d.toNat < c.toNat
        · simp [h2] at h
        · simp only [h2, if_false] at h ⊢
          exact ih ds h

theorem charListLt_conn :
    ∀ a b : List Char, charListLt a b = false → charListLt b a = false → a = b := by
  intro a
  induction a with
  | nil =>
    intro b h1 _
    cases b with
    | nil => rfl
    | cons d ds => simp [charListLt] at h1
  | cons c cs ih =>
    intro b h1 h2
    cases b with
    | nil => simp [charListLt] at h2
    | cons d ds =>
      simp only [charListLt] at h1 h2
      by_cases hcd : c.toNat < d.toNat
      · simp [hcd] at h1
      · by_cases hdc : d.toNat < c.toNat
        · simp [hdc] at h2
        · simp only [hcd, hdc, if_false] at h1 h2
          have hn : c.toNat = d.toNat := by omega
          have hc : c = d := Char.ext (UInt32.ext hn)
          rw [hc, ih ds h1 h2]

theorem charListLt_trans :
    ∀ a b c : List Char, charListLt a b = true → charListLt b c = true →
      charListLt a c = true := by
  intro a
  induction a with
  | nil =>
    intro b c h1 h2
    cases b with
    | nil => simp [charListLt] at h1
    | cons x xs =>
      cases c with
      | nil => simp [charListLt] at h2
      | cons y ys => simp [charListLt]
  | cons x xs ih =>
    intro b c h1 h2
    cases b with
    | nil => simp [charListLt] at h1
    | cons y ys =>
      cases c with
      | nil => simp [charListLt] at h2
      | cons z zs =>
        simp only [charListLt] at h1 h2 ⊢
        by_cases hxy : x.toNat < y.toNat
        · by_cases hyz : y.toNat < z.toNat
          · simp [show x.toNat < z.toNat by omega]
          · by_cases hzy : z.toNat < y.toNat
            · simp [hyz, hzy] at h2
            · have : y.toNat = z.toNat := by omega
              simp [show x.toNat < z.toNat by omega]
        · by_cases hyx : y.toNat < x.toNat
          · simp [hxy, hyx] at h1
          · have hxy' : x.toNat = y.toNat := by omega
            simp only [hxy, hyx, if_false] at h1
            by_cases hyz : y.toNat < z.toNat
            · simp [show x.toNat < z.toNat by omega]
            · by_cases hzy : z.toNat < y.toNat
              · simp [hyz, hzy] at h2
              · simp only [hyz, hzy, if_false] at h2
                have h3 : ¬x.toNat < z.toNat := by omega
                have h4 : ¬z.toNat < x.toNat := by omega
                simp only [h3, h4, if_false]
                exact ih ys zs h1 h2

instance : IsTotal String fun a b => goStrLe a b = true where
  total := by
    intro a b
    simp only [goStrLe, goStrLt, Bool.not_eq_true']
    cases h : charListLt b.data a.data
    · exact Or.inl rfl
    · exact Or.inr (charListLt_asymm _ _ h)

instance : IsTrans String fun a b => goStrLe a b = true where
  trans := by
    intro a b c h1 h2
    simp only [goStrLe, goStrLt, Bool.not_eq_true'] at h1 h2 ⊢
    cases hca : charListLt c.data a.data with
    | false => rfl
    | true =>
      exfalso
      cases hbc : charListLt b.data c.data with
      | true =>
        have hba := charListLt_trans _ _ _ hbc hca
        rw [hba] at h1
        exact Bool.noConfusion h1
      | false =>
        have hbceq : b.data = c.data := charListLt_conn _ _ hbc h2
        rw [hbceq, hca] at h1
        exact Bool.noConfusion h1

theorem goStrLt_of_le_of_ne {a b : String} (hle : goStrLe a b = true)
    (hne : a ≠ b) : goStrLt a b = true := by
  simp only [goStrLe, goStrLt, Bool.not_eq_true'] at hle ⊢
  cases hab : charListLt a.data b.data
  · exact absurd (String.ext (charListLt_conn _ _ hab hle)) hne
  · rfl

/-! ### Invariants of the `Service.List` build phases -/

theorem foldl_preserve {σ β : Type} (f : σ → β → σ) (P : σ → Prop)
    (hstep : ∀ s b, P s → P (f s b)) :
    ∀ (l : List β) (s : σ), P s → P (List.foldl f s l) := by
  intro l
  induction l with
  | nil => intro s hs; simpa using hs
  | cons b t ih =>
    intro s hs
    simpa using ih (f s b) (hstep s b hs)

theorem scanRecords_inv (rr : List RR) :
    (mkeys (scanRecords rr).1).Nodup ∧ NameKey (scanRecords rr).1 ∧
      ∀ p ∈ (scanRecords rr).1, p.2.Aliases = ([] : List String) := by
  have h := foldl_preserve
    (fun (acc : List (String × Device) × List (String × String)) r =>
      match r with
      | .A n ip => (upsert acc.1 n { Name := n, IP := some ip }, acc.2)
      | .CNAME n t => (acc.1, upsert acc.2 n t)
      | _ => acc)
    (fun acc => (mkeys acc.1).Nodup ∧ NameKey acc.1 ∧
      ∀ p ∈ acc.1, p.2.Aliases = ([] : List String))
    ?_ rr ([], []) ?_
  · exact h
  · intro s r hs
    obtain ⟨h1, h2, h3⟩ := hs
    cases r with
    | A n ip =>
      refine ⟨nodup_mkeys_upsert n _ h1, ?_, ?_⟩
      · intro p hp
        rcases mem_upsert hp with h' | h'
        · exact h2 p h'
        · rw [h']
      · intro p hp
        rcases mem_upsert hp with h' | h'
        · exact h3 p h'
        · rw [h']
    | CNAME n t => exact ⟨h1, h2, h3⟩
    | PTR n t => exact ⟨h1, h2, h3⟩
    | TXT n t => exact ⟨h1, h2, h3⟩
    | HINFO n c o => exact ⟨h1, h2, h3⟩
    | LOC n la lo al => exact ⟨h1, h2, h3⟩
  · exact ⟨by simp [mkeys], by intro p hp; simp at hp, by intro p hp; simp at hp⟩

theorem attachAliases_inv (cnames : List (String × String))
    (devs : List (String × Device)) (K : List String) (hK : mkeys devs = K)
    (h2 : NameKey devs) (h3 : ∀ p ∈ devs, p.2.Aliases = ([] : List String)) :
    mkeys (attachAliases cnames devs) = K ∧ NameKey (attachAliases cnames devs) ∧
      AliasesOk K (attachAliases cnames devs) := by
  have h := foldl_preserve
    (fun (devs : List (String × Device)) (p : String × String) =>
      if (mfind devs p.1).isSome then devs
      else
        match mfind devs p.2 with
        | some d => upsert devs p.2 { d with Aliases := d.Aliases ++ [p.1] }
        | none => devs)
    (fun m => mkeys m = K ∧ NameKey m ∧ AliasesOk K m)
    ?_ cnames devs ?_
  · exact h
  · intro m p hm
    obtain ⟨hm1, hm2, hm3⟩ := hm
    cases hf : mfind m p.1 with
    | some d => simpa [hf] using ⟨hm1, hm2, hm3⟩
    | none =>
      have hp1 : p.1 ∉ K := by
        rw [← hm1]
        exact (mfind_eq_none_iff m p.1).mp hf
      cases hf2 : mfind m p.2 with
      | none => simpa [hf, hf2] using ⟨hm1, hm2, hm3⟩
      | some d =>
        have hmem : (p.2, d) ∈ m := mfind_some_mem hf2
        have hk2 : p.2 ∈ mkeys m := List.mem_map.mpr ⟨(p.2, d), hmem, rfl⟩
        simp only [hf, Option.isSome_none, Bool.false_eq_true, if_false, hf2]
        refine ⟨?_, ?_, ?_⟩
        · rw [mkeys_upsert, if_pos hk2]
          exact hm1
        · intro q hq
          rcases mem_upsert hq with h' | h'
          · exact hm2 q h'
          · rw [h']
            exact hm2 (p.2, d) hmem
        · intro q hq a ha
          rcases mem_upsert hq with h' | h'
          · exact hm3 q h' a ha
          · rw [h'] at ha
            simp only [List.mem_append, List.mem_singleton] at ha
            rcases ha with ha | ha
            · exact hm3 (p.2, d) hmem a ha
            · rw [ha]
              exact hp1
  · refine ⟨hK, h2, ?_⟩
    intro p hp a ha
    rw [h3 p hp] at ha
    simp at ha

theorem attachReverse_inv (ptrs : List (String × String))
    (devs : List (String × Device)) (K : List String) (hK : mkeys devs = K)
    (h2 : NameKey devs) (h3 : AliasesOk K devs) :
    mkeys (attachReverse ptrs devs) = K ∧ NameKey (attachReverse ptrs devs) ∧
      AliasesOk K (attachReverse ptrs devs) := by
  have h := foldl_preserve
    (fun (devs : List (String × Device)) (p : String × String) =>
      match parseIPv4 p.1 with
      | some ip =>
        match mfind devs p.2 with
        | some d => upsert devs p.2 { d with Reverse := d.Reverse ++ [ip] }
        | none => devs
      | none => devs)
    (fun m => mkeys m = K ∧ NameKey m ∧ AliasesOk K m)
    ?_ ptrs devs ?_
  · exact h
  · intro m p hm
    obtain ⟨hm1, hm2, hm3⟩ := hm
    cases hip : parseIPv4 p.1 with
    | none => simpa [hip] using ⟨hm1, hm2, hm3⟩
    | some ip =>
      cases hf : mfind m p.2 with
      | none => simpa [hip, hf] using ⟨hm1, hm2, hm3⟩
      | some d =>
        have hmem : (p.2, d) ∈ m := mfind_some_mem hf
        have hk2 : p.2 ∈ mkeys m := List.mem_map.mpr ⟨(p.2, d), hmem, rfl⟩
        simp only [hip, hf]
        refine ⟨?_, ?_, ?_⟩
        · rw [mkeys_upsert, if_pos hk2]
          exact hm1
        · intro q hq
          rcases mem_upsert hq with h' | h'
          · exact hm2 q h'
          · rw [h']
            exact hm2 (p.2, d) hmem
        · intro q hq a ha
          rcases mem_upsert hq with h' | h'
          · exact hm3 q h' a ha
          · rw [h'] at ha
            exact hm3 (p.2, d) hmem a ha
  · exact ⟨hK, h2, h3⟩

theorem attachMappings_inv (ptrs cnames : List (String × String))
    (devs : List (String × Device)) (K : List String) (hK : mkeys devs = K)
    (h2 : NameKey devs) (h3 : AliasesOk K devs) :
    mkeys (attachMappings ptrs cnames devs) = K ∧
      NameKey (attachMappings ptrs cnames devs) ∧
      AliasesOk K (attachMappings ptrs cnames devs) := by
  have h := foldl_preserve
    (fun (devs : List (String × Device)) (p : String × String) =>
      match parseIPv4 p.1 with
      | some ip =>
        match mfind cnames p.2 with
        | some c =>
          match mfind devs c with
          | some d => upsert devs c { d with Mapping := upsert d.Mapping p.2 ip }
          | none => devs
        | none => devs
      | none => devs)
    (fun m => mkeys m = K ∧ NameKey m ∧ AliasesOk K m)
    ?_ ptrs devs ?_
  · exact h
  · intro m p hm
    obtain ⟨hm1, hm2, hm3⟩ := hm
    cases hip : parseIPv4 p.1 with
    | none => simpa [hip] using ⟨hm1, hm2, hm3⟩
    | some ip =>
      cases hc : mfind cnames p.2 with
      | none => simpa [hip, hc] using ⟨hm1, hm2, hm3⟩
      | some c =>
        cases hf : mfind m c with
        | none => simpa [hip, hc, hf] using ⟨hm1, hm2, hm3⟩
        | some d =>
          have hmem : (c, d) ∈ m := mfind_some_mem hf
          have hk2 : c ∈ mkeys m := List.mem_map.mpr ⟨(c, d), hmem, rfl⟩
          simp only [hip, hc, hf]
          refine ⟨?_, ?_, ?_⟩
          · rw [mkeys_upsert, if_pos hk2]
            exact hm1
          · intro q hq
            rcases mem_upsert hq with h' | h'
            · exact hm2 q h'
            · rw [h']
              exact hm2 (c, d) hmem
          · intro q hq a ha
            rcases mem_upsert hq with h' | h'
            · exact hm3 q h' a ha
            · rw [h'] at ha
              exact hm3 (c, d) hmem a ha
  · exact ⟨hK, h2, h3⟩

theorem setLocation_name (d : Device) (la lo al : Nat) :
    (d.SetLocation la lo al).Name = d.Name := rfl

theorem setLocation_aliases (d : Device) (la lo al : Nat) :
    (d.SetLocation la lo al).Aliases = d.Aliases := rfl

theorem enrich_inv (rr : List RR) (devs : List (String × Device)) (K : List String)
    (hK : mkeys devs = K) (h2 : NameKey devs) (h3 : AliasesOk K devs) :
    mkeys (enrich rr devs) = K ∧ NameKey (enrich rr devs) ∧
      AliasesOk K (enrich rr devs) := by
  have h := foldl_preserve
    (fun (devs : List (String × Device)) (r : RR) =>
      match mfind devs r.name with
      | none => devs
      | some d =>
        let d' :=
          match r with
          | .TXT _ txt => { d with Place := goJoin " " txt }
          | .HINFO _ cpu os => { d with Model := cpu, Code := os }
          | .LOC _ la lo al => d.SetLocation la lo al
          | _ => d
        upsert devs r.name d')
    (fun m => mkeys m = K ∧ NameKey m ∧ AliasesOk K m)
    ?_ rr devs ?_
  · exact h
  · intro m r hm
    obtain ⟨hm1, hm2, hm3⟩ := hm
    cases hf : mfind m r.name with
    | none => simpa [hf] using ⟨hm1, hm2, hm3⟩
    | some d =>
      have hmem : (r.name, d) ∈ m := mfind_some_mem hf
      have hk2 : r.name ∈ mkeys m := List.mem_map.mpr ⟨(r.name, d), hmem, rfl⟩
      have hname : ∀ d' : Device, d'.Name = d.Name → d'.Aliases = d.Aliases →
          (mkeys (upsert m r.name d') = K ∧ NameKey (upsert m r.name d') ∧
            AliasesOk K (upsert m r.name d')) := by
        intro d' hdn hda
        refine ⟨?_, ?_, ?_⟩
        · rw [mkeys_upsert, if_pos hk2]
          exact hm1
        · intro q hq
          rcases mem_upsert hq with h' | h'
          · exact hm2 q h'
          · rw [h']
            show d'.Name = r.name
            rw [hdn]
            exact hm2 (r.name, d) hmem
        · intro q hq a ha
          rcases mem_upsert hq with h' | h'
          · exact hm3 q h' a ha
          · rw [h'] at ha
            rw [hda] at ha
            exact hm3 (r.name, d) hmem a ha
      cases r with
      | A n ip => simpa [hf] using hname d rfl rfl
      | PTR n t => simpa [hf] using hname d rfl rfl
      | CNAME n t => simpa [hf] using hname d rfl rfl
      | TXT n txt => simpa [hf] using hname { d with Place := goJoin " " txt } rfl rfl
      | HINFO n c o => simpa [hf] using hname { d with Model := c, Code := o } rfl rfl
      | LOC n la lo al =>
        simpa [hf] using hname (d.SetLocation la lo al) (setLocation_name d la lo al)
          (setLocation_aliases d la lo al)
  · exact ⟨hK, h2, h3⟩

/-- A successful `ServiceList` run's output is `buildResult` of a map whose
keys are duplicate-free, whose values carry their key as name, and whose
recorded aliases never collide with a key. -/
theorem serviceList_ok_invariants (transfer : String → Except String (List RR))
    (zones reverse : List String) (out : List Device)
    (h : ServiceList transfer zones reverse = .ok out) :
    ∃ m : List (String × Device), out = buildResult m ∧ (mkeys m).Nodup ∧
      NameKey m ∧ AliasesOk (mkeys m) m := by
  cases hp : collectPtrs transfer reverse [] with
  | error e => rw [ServiceList, hp] at h; exact absurd h (by simp)
  | ok ptrs =>
    cases hr : collectRRs transfer zones [] with
    | error e => rw [ServiceList, hp, hr] at h; exact absurd h (by simp)
    | ok rr =>
      rw [ServiceList, hp, hr] at h
      rcases hsc : scanRecords rr with ⟨devs0, cnames⟩
      simp only [hsc, Except.ok.injEq] at h
      obtain ⟨hnd0, hnk0, hal0⟩ := scanRecords_inv rr
      rw [hsc] at hnd0 hnk0 hal0
      obtain ⟨hA1, hA2, hA3⟩ :=
        attachAliases_inv cnames devs0 (mkeys devs0) rfl hnk0 hal0
      obtain ⟨hR1, hR2, hR3⟩ :=
        attachReverse_inv ptrs (attachAliases cnames devs0) (mkeys devs0) hA1 hA2 hA3
      obtain ⟨hM1, hM2, hM3⟩ :=
        attachMappings_inv ptrs cnames _ (mkeys devs0) hR1 hR2 hR3
      obtain ⟨hE1, hE2, hE3⟩ := enrich_inv rr _ (mkeys devs0) hM1 hM2 hM3
      refine ⟨enrich rr (attachMappings ptrs cnames
        (attachReverse ptrs (attachAliases cnames devs0))), h.symm, ?_, hE2, ?_⟩
      · rw [hE1]
        exact hnd0
      · rw [hE1]
        exact hE3

theorem pairwise_filterMap_mfind {R : String → String → Prop}
    (m : List (String × Device)) (hnk : NameKey m) :
    ∀ ks : List String, List.Pairwise R ks →
      List.Pairwise (fun x y : Device => R x.Name y.Name)
        (ks.filterMap fun k => mfind m k) := by
  intro ks h
  induction h with
  | nil => simp
  | @cons k ks hhead htail ih =>
    simp only [List.filterMap_cons]
    cases hf : mfind m k with
    | none => exact ih
    | some d =>
      refine List.Pairwise.cons ?_ ih
      intro d' hd'
      obtain ⟨k', hk', hfk'⟩ := List.mem_filterMap.mp hd'
      have h1 : d.Name = k := hnk (k, d) (mfind_some_mem hf)
      have h2 : d'.Name = k' := hnk (k', d') (mfind_some_mem hfk')
      rw [h1, h2]
      exact hhead k' hk'

theorem buildResult_pairwise (m : List (String × Device))
    (hnd : (mkeys m).Nodup) (hnk : NameKey m) :
    List.Pairwise (fun x y : Device => goStrLt x.Name y.Name = true)
      (buildResult m) := by
  have hsorted : List.Sorted (fun a b => goStrLe a b = true)
      (sortStrings (mkeys m)) := List.sorted_insertionSort _ _
  have hperm : List.Perm (sortStrings (mkeys m)) (mkeys m) :=
    List.perm_insertionSort (fun a b => goStrLe a b = true) (mkeys m)
  have hnd' : (sortStrings (mkeys m)).Nodup := hperm.symm.nodup hnd
  have hstrict : List.Pairwise (fun a b => goStrLt a b = true)
      (sortStrings (mkeys m)) := by
    have hand := List.Pairwise.and hsorted hnd'
    exact hand.imp fun hab => goStrLt_of_le_of_ne hab.1 hab.2
  exact pairwise_filterMap_mfind m hnk _ hstrict

/-! ### Claim C7 -/

/-- C7: a successful `Service.List` returns devices in strictly ascending
lexicographic order of their names; in particular each name occurs at most
once. -/
theorem serviceList_sorted (transfer : String → Except String (List RR))
    (zones reverse : List String) (out : List Device)
    (h : ServiceList transfer zones reverse = .ok out) :
    List.Pairwise (fun x y : Device => goStrLt x.Name y.Name = true) out := by
  obtain ⟨m, hout, hnd, hnk, _⟩ :=
    serviceList_ok_invariants transfer zones reverse out h
  subst hout
  exact buildResult_pairwise m hnd hnk

/-- C7 witness: the sortedness statement applied to the concrete example
build. -/
theorem serviceList_sorted_witness :
    List.Pairwise (fun x y : Device => goStrLt x.Name y.Name = true)
      [deviceC4] :=
  serviceList_sorted transferC4 ["zone."] ["168.192.in-addr.arpa."]
    [deviceC4] (by rfl)

/-! ### Claim C4 -/

/-- C4: the correlation example — an address record for `host.zone.`, an
alias `alt.zone. -> host.zone.`, and a reverse pointer
`192.168.1.5 -> alt.zone.` — yields exactly the device `host.zone.` with
aliases `{alt.zone.}` and secondary mapping `alt.zone. ↦ 192.168.1.5`; and
in every build, a name that is itself a listed device is never recorded as
an alias of another device. -/
theorem serviceList_correlation :
    (ServiceList transferC4 ["zone."] ["168.192.in-addr.arpa."] = .ok [deviceC4] ∧
     deviceC4.Name = "host.zone." ∧ deviceC4.Aliases = ["alt.zone."] ∧
     deviceC4.Mapping = [("alt.zone.", ⟨192, 168, 1, 5⟩)]) ∧
    ∀ (transfer : String → Except String (List RR)) (zones reverse : List String)
      (out : List Device), ServiceList transfer zones reverse = .ok out →
      ∀ d ∈ out, ∀ a ∈ d.Aliases, ∀ d' ∈ out, d'.Name ≠ a := by
  constructor
  · exact ⟨by rfl, rfl, rfl, rfl⟩
  · intro transfer zones reverse out h d hd a ha d' hd'
    obtain ⟨m, hout, _, hnk, hal⟩ :=
      serviceList_ok_invariants transfer zones reverse out h
    subst hout
    rw [buildResult] at hd hd'
    obtain ⟨k, _, hfk⟩ := List.mem_filterMap.mp hd
    obtain ⟨k', hk', hfk'⟩ := List.mem_filterMap.mp hd'
    have hmem : (k, d) ∈ m := mfind_some_mem hfk
    have hmem' : (k', d') ∈ m := mfind_some_mem hfk'
    have hnotin : a ∉ mkeys m := hal (k, d) hmem a ha
    have hname : d'.Name = k' := hnk (k', d') hmem'
    have hkin : k' ∈ mkeys m := List.mem_map.mpr ⟨(k', d'), hmem', rfl⟩
    rw [hname]
    intro hcontra
    rw [hcontra] at hkin
    exact hnotin hkin

/-- C4 witness: the no-device-as-alias clause applied to the concrete
example build. -/
theorem serviceList_correlation_witness : deviceC4.Name ≠ "alt.zone." :=
  serviceList_correlation.2 transferC4 ["zone."] ["168.192.in-addr.arpa."]
    [deviceC4] serviceList_correlation.1.1 deviceC4 (List.mem_singleton.mpr rfl)
    "alt.zone." (by decide) deviceC4 (List.mem_singleton.mpr rfl)

end Place
